import Mathlib

/-!
Shallow embedding of the warehouse-network optimizer
(`optimization.py` together with the cost/distance primitives of
`utils.py`).  Numeric values are modelled over an arbitrary linear
ordered field `α` (instantiated with `ℚ` for concrete evaluations and
with `ℝ` when the transcendental haversine formula itself is needed).

External collaborators are modelled as explicit parameters:
* the OpenRouteService client (`openrouteservice.Client.distance_matrix`)
  becomes a function returning a `ProviderOutcome`: a matrix of seconds,
  an `ApiError` (caught inside `utils.get_drive_time_matrix`), or any
  other exception (caught inside `optimization._drive_time_matrix`);
* `sklearn.cluster.KMeans` becomes a function `kmeans` from the initial
  point set and the requested cluster count to a list of centroids
  (sklearn returns exactly `n_clusters` centroids; theorems that need
  this take it as a hypothesis);
* `numpy.argmin` is embedded as `argminIdx`, following its documented
  semantics: index of the first occurrence of the minimum.
-/

namespace NetworkStudy

/-- One row of the input demand table (columns `Longitude`, `Latitude`,
`DemandLbs`). -/
structure Store (α : Type) where
  Longitude : α
  Latitude : α
  DemandLbs : α
deriving DecidableEq

/-- Outcome of one call to the external routing service
(`client.distance_matrix` in `utils.get_drive_time_matrix`):
a matrix of durations in seconds, an `openrouteservice` `ApiError`,
or any other raised exception. -/
inductive ProviderOutcome (α : Type) where
  | ok (m : List (List α))
  | apiError
  | exn
deriving DecidableEq

variable {α : Type} [LinearOrderedField α]

/-- The routing service for one run: a deterministic function from the
(origins, destinations) coordinate lists to the call's outcome. -/
def Provider (α : Type) : Type :=
  List (α × α) → List (α × α) → ProviderOutcome α

/-- Embedding of `utils.get_drive_time_matrix`: returns the seconds matrix, returns
`None` on `ApiError` (the only caught exception class), and lets any
other exception propagate (modelled with `Except`). -/
def get_drive_time_matrix (prov : Provider α) (origins destinations : List (α × α)) :
    Except Unit (Option (List (List α))) :=
  match prov origins destinations with
  | .ok m => .ok (some m)
  | .apiError => .ok none
  | .exn => .error ()

/-- Embedding of `optimization._drive_time_matrix`: `None` when the key is missing
(the service is not contacted at all), otherwise the seconds matrix of
`get_drive_time_matrix` converted to minutes; `None` when that call
returned `None` or raised (the bare `except Exception` branch). -/
def drive_time_matrix (api_key : Bool) (prov : Provider α)
    (orig dest : List (α × α)) : Option (List (List α)) :=
  if api_key = false then none
  else
    match get_drive_time_matrix prov orig dest with
    | .error _ => none
    | .ok none => none
    | .ok (some secs) => some (secs.map (List.map (· / 60)))

/-- Embedding of `optimization._drive_time_single`: single-pair minutes via a 1×1
matrix call, with the haversine `miles / 50 * 60` fallback. -/
def drive_time_single (hav : α → α → α → α → α) (api_key : Bool) (prov : Provider α)
    (lon1 lat1 lon2 lat2 : α) : α :=
  match drive_time_matrix api_key prov [(lon1, lat1)] [(lon2, lat2)] with
  | some mat => (mat.getD 0 []).getD 0 0
  | none => hav lon1 lat1 lon2 lat2 / 50 * 60

/-- Embedding of `numpy.argmin` over one row: index of the first occurrence of the
minimum (numpy documentation: "the indices corresponding to the first
occurrence are returned"). -/
def argminIdx : List α → ℕ
  | [] => 0
  | [_] => 0
  | x :: y :: ys =>
    if (y :: ys).getD (argminIdx (y :: ys)) 0 < x then argminIdx (y :: ys) + 1 else 0

/-- Embedding of `optimization._haversine_vec` and `utils.haversine` (one pair):
great-circle distance in miles on a spherical Earth of radius
3958.8 miles, degree inputs converted to radians (`np.radians`:
`x * π / 180`). -/
noncomputable def haversine (lon1 lat1 lon2 lat2 : ℝ) : ℝ :=
  let lon1r := lon1 * (Real.pi / 180)
  let lat1r := lat1 * (Real.pi / 180)
  let lon2r := lon2 * (Real.pi / 180)
  let lat2r := lat2 * (Real.pi / 180)
  let dlon := lon2r - lon1r
  let dlat := lat2r - lat1r
  let a := Real.sin (dlat / 2) ^ 2 +
    Real.cos lat1r * Real.cos lat2r * Real.sin (dlon / 2) ^ 2
  3958.8 * 2 * Real.arcsin (Real.sqrt a)

/-- Embedding of `utils.warehousing_cost`. -/
def warehousing_cost (demand sqft_per_lb cost_per_sqft fixed : α) : α :=
  fixed + demand * sqft_per_lb * cost_per_sqft

/-- The travel-time matrix built inside `optimization._assign`
(`dists`): the batched drive-time matrix when available, otherwise the
per-pair haversine fallback `miles / 50 * 60`. -/
def assignDists (hav : α → α → α → α → α) (api_key : Bool) (prov : Provider α)
    (df : List (Store α)) (centers : List (α × α)) : List (List α) :=
  match drive_time_matrix api_key prov
      (df.map (fun s => (s.Longitude, s.Latitude))) centers with
  | some m => m
  | none =>
    df.map (fun s =>
      centers.map (fun c => hav s.Longitude s.Latitude c.1 c.2 / 50 * 60))

/-- Embedding of `optimization._assign`: per-store index of the nearest center
(`argmin` over the row) and the realized minimum travel time
(`dists[arange, idx]`). -/
def assign (hav : α → α → α → α → α) (api_key : Bool) (prov : Provider α)
    (df : List (Store α)) (centers : List (α × α)) : List ℕ × List α :=
  let dists := assignDists hav api_key prov df centers
  (dists.map argminIdx, dists.map (fun row => row.getD (argminIdx row) 0))

/-- Embedding of `optimization._transfer_time_multi`: for each active supply point
`(lon, lat, pct)`, a matrix call from the supply point to every center
(haversine fallback when unavailable), then
`cost += Σ_j times_j * demand_per_wh_j * pct * inbound_rate`. -/
def transfer_time_multi (hav : α → α → α → α → α) (api_key : Bool) (prov : Provider α)
    (inbound_pts : List (α × α × α)) (centers : List (α × α))
    (demand_per_wh : List α) (inbound_rate : α) : α :=
  (inbound_pts.map (fun p =>
    let times : List α :=
      match drive_time_matrix api_key prov [(p.1, p.2.1)] centers with
      | none => centers.map (fun c => hav p.1 p.2.1 c.1 c.2 / 50 * 60)
      | some m => m.getD 0 []
    (List.zipWith (fun t d => t * d * p.2.2 * inbound_rate) times demand_per_wh).sum)).sum

/-- Embedding of `optimization._inbound_cost_to_multiple_rdcs`: equal share
`total_demand / len(rdc_only_coords)`, then for every
(redistribution-only center, supply point) pair,
`cost += single-pair minutes × share × pct × inbound_rate`.
(Defined in the source but never called by `optimize`.) -/
def inbound_cost_to_multiple_rdcs (hav : α → α → α → α → α) (api_key : Bool)
    (prov : Provider α) (total_demand : α) (inbound_pts : List (α × α × α))
    (inbound_rate : α) (rdc_only_coords : List (α × α)) : α :=
  if inbound_pts = [] ∨ rdc_only_coords = [] then 0
  else
    let share := total_demand / (rdc_only_coords.length : α)
    (rdc_only_coords.map (fun r =>
      (inbound_pts.map (fun p =>
        drive_time_single hav api_key prov r.1 r.2 p.1 p.2.1 * share * p.2.2 * inbound_rate)).sum)).sum

/-- The fixed-center positional override inside `optimize`
(`centers[idx_fc] = fc` for each fixed center, indices `0,1,...`):
replaces the leading slots of `cs` with `fs`. -/
def overrideFixed : List (α × α) → List (α × α) → List (α × α)
  | [], cs => cs
  | _ :: _, [] => []
  | f :: fs, _ :: cs => f :: overrideFixed fs cs

/-- The result record built per candidate `k` inside `optimize`
(the `best` dictionary). -/
structure Solution (α : Type) where
  k : ℕ
  centers : List (α × α)
  assigned_wh : List ℕ
  assigned_time : List α
  out_cost : α
  wh_cost : α
  in_cost : α
  trans_cost : α
  total_cost : α
  demand_per_wh : List α
deriving DecidableEq

/-- The inputs of `optimize` that the per-`k` evaluation actually reads,
together with the modelled external collaborators (`hav` the geodesic
distance, `prov` the routing service, `kmeans` the clustering library).
The four redistribution parameters (`rdc_list`, `transfer_rate_min`,
`rdc_sqft_per_lb`, `rdc_cost_per_sqft`) stay explicit arguments of
`optimize` below, mirroring the source signature. -/
structure Inputs (α : Type) where
  hav : α → α → α → α → α
  prov : Provider α
  kmeans : List (α × α) → ℕ → List (α × α)
  df : List (Store α)
  rate_out_min : α
  sqft_per_lb : α
  cost_sqft : α
  fixed_cost : α
  consider_inbound : Bool
  inbound_rate_min : α
  inbound_pts : List (α × α × α)
  fixed_centers : List (α × α)
  use_drive_times : Bool
  ors_api_key : Bool

/-- The effective api key passed to the travel-time calls inside
`optimize` (`ors_api_key if use_drive_times else None`). -/
def Inputs.key (I : Inputs α) : Bool :=
  I.use_drive_times && I.ors_api_key

/-- The clustering seed point set of `optimize` (`init_pts`): store
coordinates, with fixed-center coordinates stacked below when present. -/
def Inputs.init_pts (I : Inputs α) : List (α × α) :=
  I.df.map (fun s => (s.Longitude, s.Latitude)) ++ I.fixed_centers

/-- The body of `optimize`'s `for k in k_vals` loop: one fully evaluated
candidate Solution for count `k`. -/
def evalK (I : Inputs α) (k : ℕ) : Solution α :=
  let k_eff := max k I.fixed_centers.length
  let centers := overrideFixed I.fixed_centers (I.kmeans I.init_pts k_eff)
  let dists := assignDists I.hav I.key I.prov I.df centers
  let idx := dists.map argminIdx
  let tmin := dists.map (fun row => row.getD (argminIdx row) 0)
  let out_cost := (List.zipWith (fun t s => t * s.DemandLbs * I.rate_out_min) tmin I.df).sum
  let demand_list := (List.range centers.length).map (fun i =>
    (((I.df.zip idx).filter (fun p => p.2 = i)).map (fun p => p.1.DemandLbs)).sum)
  let wh_cost := (demand_list.map (fun d =>
    warehousing_cost d I.sqft_per_lb I.cost_sqft I.fixed_cost)).sum
  let in_cost :=
    if I.consider_inbound then
      transfer_time_multi I.hav I.key I.prov I.inbound_pts centers demand_list I.inbound_rate_min
    else 0
  let trans_cost : α := 0
  { k := k
    centers := centers
    assigned_wh := idx
    assigned_time := tmin
    out_cost := out_cost
    wh_cost := wh_cost
    in_cost := in_cost
    trans_cost := trans_cost
    total_cost := out_cost + wh_cost + in_cost + trans_cost
    demand_per_wh := demand_list }

/-- One iteration of `optimize`'s `for k in k_vals` loop: the first
candidate becomes the initial best; afterwards a candidate replaces the
best only when its total cost is strictly lower. -/
def optStep (I : Inputs α) (best : Option (Solution α)) (k : ℕ) : Option (Solution α) :=
  let sol := evalK I k
  match best with
  | none => some sol
  | some b => if sol.total_cost < b.total_cost then some sol else some b

/-- Embedding of `optimization.optimize`: evaluates every `k` in `k_vals` and keeps
the first Solution, replaced only by a strictly cheaper one.  The
parameters `rdc_list`, `transfer_rate_min`, `rdc_sqft_per_lb` and
`rdc_cost_per_sqft` are accepted (as in the source signature) but never
read by the body. -/
def optimize (I : Inputs α) (k_vals : List ℕ)
    (rdc_list : List ((α × α) × Bool)) (transfer_rate_min : α)
    (rdc_sqft_per_lb rdc_cost_per_sqft : Option α) : Option (Solution α) :=
  k_vals.foldl (optStep I) none

/-- The shape guarantee of the routing service on success: one row per
origin, one column per destination (numpy's broadcast assignment
`dists[:] = time_mat` in `_assign` silently relies on it). -/
def WellShaped (prov : Provider α) : Prop :=
  ∀ o d m, prov o d = .ok m → m.length = o.length ∧ ∀ row ∈ m, row.length = d.length

/-- The travel time from one supply point to the `j`-th center as
realized inside `_transfer_time_multi`: the `j`-th entry of the first
row of the batched matrix call, or the haversine fallback for that
pair. -/
def supplyCenterTime (hav : α → α → α → α → α) (api_key : Bool) (prov : Provider α)
    (p : α × α × α) (centers : List (α × α)) (j : ℕ) : α :=
  match drive_time_matrix api_key prov [(p.1, p.2.1)] centers with
  | none => (centers.map (fun c => hav p.1 p.2.1 c.1 c.2 / 50 * 60)).getD j 0
  | some m => (m.getD 0 []).getD j 0

/-- A concrete offline configuration over `ℚ`, used to evaluate the
embedding on explicit inputs: squared-Euclidean stand-in for the
geodesic distance, a routing service whose every call fails with an
`ApiError`, and a clustering stub placing the `n` requested centroids
at `(0,0), (1,0), …`.  Two stores with demands 100 and 50 (total 150)
and one supply point at `(3, 0)` with inbound share 1. -/
def testInputs : Inputs ℚ :=
  { hav := fun lon1 lat1 lon2 lat2 =>
      (lon2 - lon1) * (lon2 - lon1) + (lat2 - lat1) * (lat2 - lat1)
    prov := fun _ _ => .apiError
    kmeans := fun _ n => (List.range n).map (fun (i : ℕ) => ((i : ℚ), 0))
    df := [⟨0, 0, 100⟩, ⟨2, 0, 50⟩]
    rate_out_min := 1
    sqft_per_lb := 2
    cost_sqft := 3
    fixed_cost := 10
    consider_inbound := true
    inbound_rate_min := 1
    inbound_pts := [(3, 0, 1)]
    fixed_centers := []
    use_drive_times := false
    ors_api_key := false }

/-- Variant of `testInputs` with one fixed center at `(5, 7)` and a routing
service that succeeds with a constant well-shaped matrix, for the
witnesses that exercise the provider path and the fixed-center
override. -/
def testInputsFixed : Inputs ℚ :=
  { testInputs with
    fixed_centers := [(5, 7)]
    prov := fun o d => .ok (o.map (fun _ => d.map (fun _ => (120 : ℚ))))
    use_drive_times := true
    ors_api_key := true }

/-! ### Lemmas about `argminIdx` -/

theorem argminIdx_cons_cons (x y : α) (ys : List α) :
    argminIdx (x :: y :: ys) =
      if (y :: ys).getD (argminIdx (y :: ys)) 0 < x then argminIdx (y :: ys) + 1 else 0 :=
  rfl

theorem argminIdx_lt_length (l : List α) (h : l ≠ []) : argminIdx l < l.length := by
  match l with
  | [x] => simp [argminIdx]
  | x :: y :: ys =>
    have ih := argminIdx_lt_length (y :: ys) (by simp)
    rw [argminIdx_cons_cons]
    by_cases hc : (y :: ys).getD (argminIdx (y :: ys)) 0 < x
    · rw [if_pos hc]
      simpa using Nat.succ_lt_succ ih
    · rw [if_neg hc]
      simp

theorem argminIdx_le (l : List α) (j : ℕ) (hj : j < l.length) :
    l.getD (argminIdx l) 0 ≤ l.getD j 0 := by
  match l with
  | [x] =>
    match j with
    | 0 => simp [argminIdx]
  | x :: y :: ys =>
    have ih := fun j hj => argminIdx_le (y :: ys) j hj
    rw [argminIdx_cons_cons]
    by_cases hc : (y :: ys).getD (argminIdx (y :: ys)) 0 < x
    · rw [if_pos hc]
      rw [List.getD_cons_succ]
      match j with
      | 0 => exact le_of_lt hc
      | j + 1 =>
        rw [List.getD_cons_succ]
        exact ih j (by simpa using hj)
    · rw [if_neg hc]
      rw [List.getD_cons_zero]
      match j with
      | 0 => simp
      | j + 1 =>
        rw [List.getD_cons_succ]
        exact le_trans (not_lt.mp hc) (ih j (by simpa using hj))

theorem argminIdx_first (l : List α) (j : ℕ) (hj : j < argminIdx l) :
    l.getD (argminIdx l) 0 < l.getD j 0 := by
  match l with
  | [] => simp [argminIdx] at hj
  | [x] => simp [argminIdx] at hj
  | x :: y :: ys =>
    have ih := fun j hj => argminIdx_first (y :: ys) j hj
    rw [argminIdx_cons_cons] at hj ⊢
    by_cases hc : (y :: ys).getD (argminIdx (y :: ys)) 0 < x
    · rw [if_pos hc] at hj ⊢
      rw [List.getD_cons_succ]
      match j with
      | 0 => simpa using hc
      | j + 1 =>
        rw [List.getD_cons_succ]
        exact ih j (by omega)
    · rw [if_neg hc] at hj
      omega

/-! ### General helper lemmas -/

theorem getD_map_lt {β γ : Type} (f : β → γ) (l : List β) (i : ℕ) (h : i < l.length)
    (d : γ) (d' : β) : (l.map f).getD i d = f (l.getD i d') := by
  induction l generalizing i with
  | nil => simp at h
  | cons a t ih =>
    match i with
    | 0 => simp
    | i + 1 =>
      simp only [List.map_cons, List.getD_cons_succ]
      exact ih i (by simpa using h)

theorem getD_mem {β : Type} (l : List β) (i : ℕ) (h : i < l.length) (d : β) :
    l.getD i d ∈ l := by
  induction l generalizing i with
  | nil => simp at h
  | cons a t ih =>
    match i with
    | 0 => simp
    | i + 1 =>
      simp only [List.getD_cons_succ]
      exact List.mem_cons_of_mem a (ih i (by simpa using h))

theorem overrideFixed_length (fs cs : List (α × α)) :
    (overrideFixed fs cs).length = cs.length := by
  induction fs generalizing cs with
  | nil => simp [overrideFixed]
  | cons f fs ih =>
    match cs with
    | [] => simp [overrideFixed]
    | c :: cs => simp [overrideFixed, ih]

theorem overrideFixed_take (fs cs : List (α × α)) (h : fs.length ≤ cs.length) :
    (overrideFixed fs cs).take fs.length = fs := by
  induction fs generalizing cs with
  | nil => simp [overrideFixed]
  | cons f fs ih =>
    match cs with
    | [] => simp at h
    | c :: cs =>
      simp only [overrideFixed, List.length_cons, List.take_succ_cons]
      rw [ih cs (by simpa using h)]

/-! ### Projection lemmas for `evalK` -/

theorem evalK_k (I : Inputs α) (k : ℕ) : (evalK I k).k = k := rfl

theorem evalK_trans_cost (I : Inputs α) (k : ℕ) : (evalK I k).trans_cost = 0 := rfl

theorem evalK_centers (I : Inputs α) (k : ℕ) :
    (evalK I k).centers =
      overrideFixed I.fixed_centers (I.kmeans I.init_pts (max k I.fixed_centers.length)) := rfl

theorem evalK_assigned_wh (I : Inputs α) (k : ℕ) :
    (evalK I k).assigned_wh =
      (assignDists I.hav I.key I.prov I.df (evalK I k).centers).map argminIdx := rfl

theorem evalK_demand_per_wh (I : Inputs α) (k : ℕ) :
    (evalK I k).demand_per_wh =
      (List.range (evalK I k).centers.length).map (fun i =>
        (((I.df.zip (evalK I k).assigned_wh).filter (fun p => p.2 = i)).map
          (fun p => p.1.DemandLbs)).sum) := rfl

theorem evalK_in_cost (I : Inputs α) (k : ℕ) :
    (evalK I k).in_cost =
      if I.consider_inbound then
        transfer_time_multi I.hav I.key I.prov I.inbound_pts (evalK I k).centers
          (evalK I k).demand_per_wh I.inbound_rate_min
      else 0 := rfl

/-! ### Shape lemmas for the travel-time matrices -/

theorem drive_time_matrix_shape (key : Bool) (prov : Provider α) (hw : WellShaped prov)
    (o d : List (α × α)) (m : List (List α))
    (h : drive_time_matrix key prov o d = some m) :
    m.length = o.length ∧ ∀ row ∈ m, row.length = d.length := by
  by_cases hk : key = false
  · simp [drive_time_matrix, hk] at h
  · rw [drive_time_matrix, if_neg hk] at h
    rcases hp : prov o d with m' | _ | _ <;>
      simp only [get_drive_time_matrix, hp] at h
    · obtain ⟨hlen, hrow⟩ := hw o d m' hp
      injection h with h
      refine ⟨?_, ?_⟩
      · rw [← h]
        simpa using hlen
      · intro row hrowmem
        rw [← h] at hrowmem
        obtain ⟨row', hrow', hmap⟩ := List.mem_map.mp hrowmem
        rw [← hmap]
        simpa using hrow row' hrow'
    · exact Option.noConfusion h
    · exact Option.noConfusion h

theorem assignDists_of_none (hav : α → α → α → α → α) (key : Bool) (prov : Provider α)
    (df : List (Store α)) (centers : List (α × α))
    (h : drive_time_matrix key prov (df.map (fun s => (s.Longitude, s.Latitude))) centers = none) :
    assignDists hav key prov df centers =
      df.map (fun s => centers.map (fun c => hav s.Longitude s.Latitude c.1 c.2 / 50 * 60)) := by
  rw [assignDists, h]

theorem assignDists_of_some (hav : α → α → α → α → α) (key : Bool) (prov : Provider α)
    (df : List (Store α)) (centers : List (α × α)) (m : List (List α))
    (h : drive_time_matrix key prov (df.map (fun s => (s.Longitude, s.Latitude))) centers = some m) :
    assignDists hav key prov df centers = m := by
  rw [assignDists, h]

theorem assignDists_shape (hav : α → α → α → α → α) (key : Bool) (prov : Provider α)
    (hw : WellShaped prov) (df : List (Store α)) (centers : List (α × α)) :
    (assignDists hav key prov df centers).length = df.length ∧
      ∀ row ∈ assignDists hav key prov df centers, row.length = centers.length := by
  rcases h : drive_time_matrix key prov (df.map (fun s => (s.Longitude, s.Latitude))) centers
    with _ | m
  · rw [assignDists_of_none hav key prov df centers h]
    constructor
    · simp
    · intro row hrow
      obtain ⟨s, _, hmap⟩ := List.mem_map.mp hrow
      rw [← hmap]
      simp
  · rw [assignDists_of_some hav key prov df centers m h]
    have := drive_time_matrix_shape key prov hw _ _ m h
    simpa using this

/-! ### Characterization of the search fold -/

theorem foldl_optStep_min (I : Inputs α) (ks : List ℕ) (b : Solution α) :
    ∃ r, ks.foldl (optStep I) (some b) = some r ∧
      r.total_cost ≤ b.total_cost ∧
      (∀ j (hj : j < ks.length), r.total_cost ≤ (evalK I (ks.get ⟨j, hj⟩)).total_cost) ∧
      (r = b ∨ ∃ i, ∃ hi : i < ks.length, r = evalK I (ks.get ⟨i, hi⟩) ∧
        r.total_cost < b.total_cost ∧
        ∀ j (hj : j < i), r.total_cost < (evalK I (ks.get ⟨j, hj.trans hi⟩)).total_cost) := by
  induction ks generalizing b with
  | nil =>
    refine ⟨b, rfl, le_refl _, ?_, Or.inl rfl⟩
    intro j hj
    simp at hj
  | cons k t ih =>
    have hstep : List.foldl (optStep I) (some b) (k :: t) =
        List.foldl (optStep I)
          (if (evalK I k).total_cost < b.total_cost then some (evalK I k) else some b) t := by
      simp only [List.foldl_cons, optStep]
    by_cases hc : (evalK I k).total_cost < b.total_cost
    · rw [hstep, if_pos hc]
      obtain ⟨r, hfold, hle, hall, hcase⟩ := ih (evalK I k)
      refine ⟨r, hfold, le_of_lt (lt_of_le_of_lt hle hc), ?_, ?_⟩
      · intro j hj
        match j with
        | 0 => exact hle
        | j + 1 => exact hall j (by simpa using hj)
      · rcases hcase with rfl | ⟨i, hi, hr, hrlt, hfirst⟩
        · refine Or.inr ⟨0, by simp, rfl, hc, ?_⟩
          intro j hj
          simp at hj
        · refine Or.inr ⟨i + 1, by simpa using hi, hr, lt_trans hrlt hc, ?_⟩
          intro j hj
          match j with
          | 0 => exact hrlt
          | j + 1 => exact hfirst j (by omega)
    · rw [hstep, if_neg hc]
      obtain ⟨r, hfold, hle, hall, hcase⟩ := ih b
      refine ⟨r, hfold, hle, ?_, ?_⟩
      · intro j hj
        match j with
        | 0 => exact le_trans hle (not_lt.mp hc)
        | j + 1 => exact hall j (by simpa using hj)
      · rcases hcase with rfl | ⟨i, hi, hr, hrlt, hfirst⟩
        · exact Or.inl rfl
        · refine Or.inr ⟨i + 1, by simpa using hi, hr, hrlt, ?_⟩
          intro j hj
          match j with
          | 0 => exact lt_of_lt_of_le hrlt (not_lt.mp hc)
          | j + 1 => exact hfirst j (by omega)

theorem foldl_optStep_mem (I : Inputs α) (ks : List ℕ) (acc : Option (Solution α))
    (sol : Solution α) (h : ks.foldl (optStep I) acc = some sol) :
    acc = some sol ∨ ∃ k ∈ ks, sol = evalK I k := by
  induction ks generalizing acc with
  | nil => exact Or.inl h
  | cons k t ih =>
    rw [List.foldl_cons] at h
    rcases ih (optStep I acc k) h with hacc | ⟨k', hk', hsol⟩
    · match acc with
      | none =>
        simp only [optStep] at hacc
        injection hacc with hacc
        exact Or.inr ⟨k, List.mem_cons_self k t, hacc.symm⟩
      | some b =>
        simp only [optStep] at hacc
        by_cases hcb : (evalK I k).total_cost < b.total_cost
        · rw [if_pos hcb] at hacc
          injection hacc with hacc
          exact Or.inr ⟨k, List.mem_cons_self k t, hacc.symm⟩
        · rw [if_neg hcb] at hacc
          exact Or.inl hacc
    · exact Or.inr ⟨k', List.mem_cons_of_mem k hk', hsol⟩

/-! ### Claim theorems -/

/-- C2: for every non-empty candidate list, `optimize` evaluates every
requested `k`, returns the Solution of some candidate index `i` whose
total cost is a minimum over all evaluated candidates, and every
earlier-iterated candidate has strictly larger total cost (so ties keep
the first-found candidate, and the first candidate is the initial
best). -/
theorem optimize_exhaustive_min (I : Inputs α) (ks : List ℕ)
    (rdc : List ((α × α) × Bool)) (tr : α) (rs rc : Option α) (h : ks ≠ []) :
    ∃ i, ∃ hi : i < ks.length,
      optimize I ks rdc tr rs rc = some (evalK I (ks.get ⟨i, hi⟩)) ∧
      (∀ j (hj : j < ks.length),
        (evalK I (ks.get ⟨i, hi⟩)).total_cost ≤ (evalK I (ks.get ⟨j, hj⟩)).total_cost) ∧
      (∀ j (hj : j < i),
        (evalK I (ks.get ⟨i, hi⟩)).total_cost <
          (evalK I (ks.get ⟨j, hj.trans hi⟩)).total_cost) := by
  match ks with
  | [] => exact absurd rfl h
  | k :: t =>
    obtain ⟨r, hfold, hle, hall, hcase⟩ := foldl_optStep_min I t (evalK I k)
    have hopt : optimize I (k :: t) rdc tr rs rc = some r := by
      rw [optimize, List.foldl_cons]
      exact hfold
    rcases hcase with rfl | ⟨i', hi', hr, hrlt, hfirst⟩
    · refine ⟨0, by simp, hopt, ?_, ?_⟩
      · intro j hj
        match j with
        | 0 => exact le_refl _
        | j + 1 => exact hall j (by simpa using hj)
      · intro j hj
        simp at hj
    · have hi2 : i' + 1 < (k :: t).length := by simpa using Nat.succ_lt_succ hi'
      refine ⟨i' + 1, hi2, ?_, ?_, ?_⟩
      · rw [hopt, hr]
        rfl
      · intro j hj
        show (evalK I (t.get ⟨i', hi'⟩)).total_cost ≤ _
        rw [← hr]
        match j with
        | 0 => exact le_of_lt hrlt
        | j + 1 => exact hall j (by simpa using hj)
      · intro j hj
        show (evalK I (t.get ⟨i', hi'⟩)).total_cost < _
        rw [← hr]
        match j with
        | 0 => exact hrlt
        | j + 1 => exact hfirst j (by omega)

/-- Witness for C2 at a concrete configuration with two candidates. -/
theorem optimize_exhaustive_min_witness :
    ∃ i, ∃ hi : i < ([1, 2] : List ℕ).length,
      optimize testInputs [1, 2] [] 0 none none =
        some (evalK testInputs (([1, 2] : List ℕ).get ⟨i, hi⟩)) ∧
      (∀ j (hj : j < ([1, 2] : List ℕ).length),
        (evalK testInputs (([1, 2] : List ℕ).get ⟨i, hi⟩)).total_cost ≤
          (evalK testInputs (([1, 2] : List ℕ).get ⟨j, hj⟩)).total_cost) ∧
      (∀ j (hj : j < i),
        (evalK testInputs (([1, 2] : List ℕ).get ⟨i, hi⟩)).total_cost <
          (evalK testInputs (([1, 2] : List ℕ).get ⟨j, hj.trans hi⟩)).total_cost) :=
  optimize_exhaustive_min testInputs [1, 2] [] 0 none none (by decide)

/-- C4: every per-candidate Solution has exactly
`max k (number of fixed centers)` centers, and its first
`len(fixed_centers)` entries are exactly the caller-supplied fixed
coordinates, for any clustering output of the requested length. -/
theorem solution_centers_fixed (I : Inputs α) (k : ℕ)
    (hkm : ∀ pts n, (I.kmeans pts n).length = n) :
    (evalK I k).centers.length = max k I.fixed_centers.length ∧
    (evalK I k).centers.take I.fixed_centers.length = I.fixed_centers := by
  rw [evalK_centers]
  constructor
  · rw [overrideFixed_length, hkm]
  · exact overrideFixed_take _ _ (by rw [hkm]; exact le_max_right _ _)

/-- Witness for C4 with one fixed center and `k = 3`. -/
theorem solution_centers_fixed_witness :
    (evalK testInputsFixed 3).centers.length =
      max 3 testInputsFixed.fixed_centers.length ∧
    (evalK testInputsFixed 3).centers.take testInputsFixed.fixed_centers.length =
      testInputsFixed.fixed_centers :=
  solution_centers_fixed testInputsFixed 3
    (fun pts n => by
      show ((List.range n).map (fun (i : ℕ) => ((i : ℚ), 0))).length = n
      rw [List.length_map, List.length_range])

/-- C9: the returned Solution's `trans_cost` is exactly `0`, and the
whole result of `optimize` is independent of the `rdc_list`,
`transfer_rate_min`, `rdc_sqft_per_lb` and `rdc_cost_per_sqft`
arguments. -/
theorem optimize_trans_zero_rdc_independent (I : Inputs α) (ks : List ℕ)
    (rdc₁ : List ((α × α) × Bool)) (tr₁ : α) (rs₁ rc₁ : Option α)
    (rdc₂ : List ((α × α) × Bool)) (tr₂ : α) (rs₂ rc₂ : Option α) :
    optimize I ks rdc₁ tr₁ rs₁ rc₁ = optimize I ks rdc₂ tr₂ rs₂ rc₂ ∧
    ∀ sol, optimize I ks rdc₁ tr₁ rs₁ rc₁ = some sol → sol.trans_cost = 0 := by
  constructor
  · rfl
  · intro sol h
    rw [optimize] at h
    rcases foldl_optStep_mem I ks none sol h with hacc | ⟨k, _, rfl⟩
    · exact Option.noConfusion hacc
    · exact evalK_trans_cost I k

/-- Witness for C9: two calls differing only in the redistribution
arguments coincide, and the returned `trans_cost` is `0`. -/
theorem optimize_trans_zero_rdc_independent_witness :
    optimize testInputs [1] [] 0 none none =
      optimize testInputs [1] [((5, 6), true)] 7 (some 8) (some 9) ∧
    (evalK testInputs 1).trans_cost = 0 :=
  ⟨(optimize_trans_zero_rdc_independent testInputs [1] [] 0 none none
      [((5, 6), true)] 7 (some 8) (some 9)).1,
   (optimize_trans_zero_rdc_independent testInputs [1] [] 0 none none
      [((5, 6), true)] 7 (some 8) (some 9)).2 (evalK testInputs 1) rfl⟩

/-- C10: an empty candidate sequence yields no Solution (`none`), and a
returned Solution's `k` field is an element of the supplied
candidates. -/
theorem optimize_empty_none_k_mem (I : Inputs α) (ks : List ℕ)
    (rdc : List ((α × α) × Bool)) (tr : α) (rs rc : Option α) :
    (ks = [] → optimize I ks rdc tr rs rc = none) ∧
    ∀ sol, optimize I ks rdc tr rs rc = some sol → sol.k ∈ ks := by
  constructor
  · rintro rfl
    rfl
  · intro sol h
    rw [optimize] at h
    rcases foldl_optStep_mem I ks none sol h with hacc | ⟨k, hk, rfl⟩
    · exact Option.noConfusion hacc
    · rw [evalK_k]
      exact hk

/-- Witness for C10: the empty candidate list returns `none`, and with
candidates `[1]` the returned `k` is `1`. -/
theorem optimize_empty_none_k_mem_witness :
    optimize testInputs ([] : List ℕ) [] 0 none none = none ∧
    (evalK testInputs 1).k ∈ ([1] : List ℕ) :=
  ⟨(optimize_empty_none_k_mem testInputs [] [] 0 none none).1 rfl,
   (optimize_empty_none_k_mem testInputs [1] [] 0 none none).2 (evalK testInputs 1) rfl⟩

/-- C1 (code bug): with two redistribution-only centers enabled and an
active supply point with inbound share 1, the Solution returned by
`optimize` has transfer cost `0` — the transfer formula of
`_inbound_cost_to_multiple_rdcs` is never invoked by `optimize` — while
that formula, `Σ travel_time × (total_demand / 2) × 1 × transfer_rate`
over the two centers, evaluates to `1170 > 0` on the same data. -/
theorem transfer_cost_never_computed :
    (optimize testInputs [2] [((0, 0), false), ((1, 0), false)] 1 (some 2) (some 3)).map
        Solution.trans_cost = some 0 ∧
    inbound_cost_to_multiple_rdcs testInputs.hav testInputs.key testInputs.prov
        ((testInputs.df.map Store.DemandLbs).sum) testInputs.inbound_pts 1
        [(0, 0), (1, 0)] = 1170 ∧
    (0 : ℚ) < 1170 := by
  refine ⟨rfl, ?_, by norm_num⟩
  show inbound_cost_to_multiple_rdcs testInputs.hav testInputs.key testInputs.prov
      ((testInputs.df.map Store.DemandLbs).sum) testInputs.inbound_pts 1
      [(0, 0), (1, 0)] = 1170
  rw [inbound_cost_to_multiple_rdcs]
  norm_num [drive_time_single, drive_time_matrix, get_drive_time_matrix,
    testInputs, Inputs.key]
  simp

/-- C8: when every call to the routing service fails (authentication,
quota, network — i.e. `ApiError` or any other exception), the provider
layer returns the unavailable signal (`none`) instead of propagating,
the assignment step recovers with the geometric haversine fallback for
every pair, and `optimize` runs to completion with exactly the result
of a credential-less run (no exception reaches the caller). -/
theorem provider_failure_never_raises (I : Inputs α) (ks : List ℕ)
    (rdc : List ((α × α) × Bool)) (tr : α) (rs rc : Option α)
    (hfail : ∀ o d, I.prov o d = .apiError ∨ I.prov o d = .exn) :
    (∀ (key : Bool) (o d : List (α × α)), drive_time_matrix key I.prov o d = none) ∧
    (∀ (df : List (Store α)) (centers : List (α × α)),
      assignDists I.hav I.key I.prov df centers =
        df.map (fun s => centers.map (fun c => I.hav s.Longitude s.Latitude c.1 c.2 / 50 * 60))) ∧
    optimize I ks rdc tr rs rc =
      optimize { I with ors_api_key := false } ks rdc tr rs rc := by
  have hnone : ∀ (key : Bool) (o d : List (α × α)), drive_time_matrix key I.prov o d = none := by
    intro key o d
    rcases hfail o d with h | h <;>
      simp [drive_time_matrix, get_drive_time_matrix, h]
  refine ⟨hnone, ?_, ?_⟩
  · intro df centers
    exact assignDists_of_none _ _ _ _ _ (hnone _ _ _)
  · have hAD : ∀ (key₁ key₂ : Bool) (df : List (Store α)) (centers : List (α × α)),
        assignDists I.hav key₁ I.prov df centers =
          assignDists I.hav key₂ I.prov df centers := by
      intro key₁ key₂ df centers
      rw [assignDists_of_none _ _ _ _ _ (hnone _ _ _),
        assignDists_of_none _ _ _ _ _ (hnone _ _ _)]
    have hTM : ∀ (key₁ key₂ : Bool) (pts : List (α × α × α)) (centers : List (α × α))
        (demands : List α) (rate : α),
        transfer_time_multi I.hav key₁ I.prov pts centers demands rate =
          transfer_time_multi I.hav key₂ I.prov pts centers demands rate := by
      intro key₁ key₂ pts centers demands rate
      simp only [transfer_time_multi]
      have hf : (fun (p : α × α × α) =>
          (List.zipWith (fun t d => t * d * p.2.2 * rate)
            (match drive_time_matrix key₁ I.prov [(p.1, p.2.1)] centers with
             | none => centers.map (fun c => I.hav p.1 p.2.1 c.1 c.2 / 50 * 60)
             | some m => m.getD 0 []) demands).sum) =
          (fun (p : α × α × α) =>
          (List.zipWith (fun t d => t * d * p.2.2 * rate)
            (match drive_time_matrix key₂ I.prov [(p.1, p.2.1)] centers with
             | none => centers.map (fun c => I.hav p.1 p.2.1 c.1 c.2 / 50 * 60)
             | some m => m.getD 0 []) demands).sum) := by
        funext p
        rw [hnone, hnone]
      rw [hf]
    have hEV : ∀ k, evalK I k = evalK { I with ors_api_key := false } k := by
      intro k
      dsimp only [evalK, Inputs.key, Inputs.init_pts]
      rw [hAD (I.use_drive_times && I.ors_api_key) (I.use_drive_times && false),
        hTM (I.use_drive_times && I.ors_api_key) (I.use_drive_times && false)]
    have hstep : optStep I = optStep { I with ors_api_key := false } := by
      funext b k
      match b with
      | none =>
        show some (evalK I k) = some (evalK { I with ors_api_key := false } k)
        rw [hEV]
      | some b =>
        show (if (evalK I k).total_cost < b.total_cost
              then some (evalK I k) else some b) =
            (if (evalK { I with ors_api_key := false } k).total_cost < b.total_cost
              then some (evalK { I with ors_api_key := false } k) else some b)
        rw [hEV]
    rw [optimize, optimize, hstep]

/-- Witness for C8 at the all-failing concrete provider. -/
theorem provider_failure_never_raises_witness :
    (∀ (key : Bool) (o d : List (ℚ × ℚ)),
      drive_time_matrix key testInputs.prov o d = none) ∧
    (∀ (df : List (Store ℚ)) (centers : List (ℚ × ℚ)),
      assignDists testInputs.hav testInputs.key testInputs.prov df centers =
        df.map (fun s => centers.map
          (fun c => testInputs.hav s.Longitude s.Latitude c.1 c.2 / 50 * 60))) ∧
    optimize testInputs [1] [] 0 none none =
      optimize { testInputs with ors_api_key := false } [1] [] 0 none none :=
  provider_failure_never_raises testInputs [1] [] 0 none none
    (fun o d => Or.inl rfl)

/-- C3: for every demand table and non-empty center list, the assigned
center index of each demand point is the (first-occurrence) argmin of
its travel-time row: it is in range, its travel time is ≤ the travel
time to every other center, every strictly earlier center index has
strictly larger travel time (lowest-index tie-break), and the stored
per-point time is exactly that realized minimum. -/
theorem assign_nearest_center (hav : α → α → α → α → α) (key : Bool) (prov : Provider α)
    (df : List (Store α)) (centers : List (α × α))
    (hc : centers ≠ []) (hw : WellShaped prov) (i : ℕ) (hi : i < df.length) :
    (assign hav key prov df centers).1.getD i 0 =
      argminIdx ((assignDists hav key prov df centers).getD i []) ∧
    (assign hav key prov df centers).1.getD i 0 < centers.length ∧
    (∀ j, j < centers.length →
      ((assignDists hav key prov df centers).getD i []).getD
          ((assign hav key prov df centers).1.getD i 0) 0 ≤
        ((assignDists hav key prov df centers).getD i []).getD j 0) ∧
    (∀ j, j < (assign hav key prov df centers).1.getD i 0 →
      ((assignDists hav key prov df centers).getD i []).getD
          ((assign hav key prov df centers).1.getD i 0) 0 <
        ((assignDists hav key prov df centers).getD i []).getD j 0) ∧
    (assign hav key prov df centers).2.getD i 0 =
      ((assignDists hav key prov df centers).getD i []).getD
        ((assign hav key prov df centers).1.getD i 0) 0 := by
  obtain ⟨hlen, hrows⟩ := assignDists_shape hav key prov hw df centers
  have hiD : i < (assignDists hav key prov df centers).length := by rw [hlen]; exact hi
  have hrowmem : (assignDists hav key prov df centers).getD i [] ∈
      assignDists hav key prov df centers := getD_mem _ i hiD []
  have hrowlen : ((assignDists hav key prov df centers).getD i []).length = centers.length :=
    hrows _ hrowmem
  have hrowne : (assignDists hav key prov df centers).getD i [] ≠ [] := by
    intro hnil
    rw [hnil] at hrowlen
    exact hc (List.length_eq_zero.mp hrowlen.symm)
  have h1 : (assign hav key prov df centers).1.getD i 0 =
      argminIdx ((assignDists hav key prov df centers).getD i []) :=
    getD_map_lt argminIdx _ i hiD 0 []
  refine ⟨h1, ?_, ?_, ?_, ?_⟩
  · rw [h1, ← hrowlen]
    exact argminIdx_lt_length _ hrowne
  · intro j hj
    rw [h1]
    exact argminIdx_le _ j (by rw [hrowlen]; exact hj)
  · intro j hj
    rw [h1]
    exact argminIdx_first _ j (by rw [← h1]; exact hj)
  · have h2 : ((assignDists hav key prov df centers).map
        (fun row => row.getD (argminIdx row) 0)).getD i 0 =
        ((assignDists hav key prov df centers).getD i []).getD
          (argminIdx ((assignDists hav key prov df centers).getD i [])) 0 :=
      getD_map_lt (fun row => row.getD (argminIdx row) 0) _ i hiD 0 []
    show ((assignDists hav key prov df centers).map
      (fun row => row.getD (argminIdx row) 0)).getD i 0 = _
    rw [h2, h1]

/-- Witness for C3 at the offline configuration, first store, two
centers. -/
theorem assign_nearest_center_witness :
    (assign testInputs.hav false testInputs.prov testInputs.df [(0, 0), (1, 0)]).1.getD 0 0 =
      argminIdx ((assignDists testInputs.hav false testInputs.prov testInputs.df
        [(0, 0), (1, 0)]).getD 0 []) ∧
    (assign testInputs.hav false testInputs.prov testInputs.df [(0, 0), (1, 0)]).1.getD 0 0 <
      ([(0, 0), (1, 0)] : List (ℚ × ℚ)).length ∧
    (∀ j, j < ([(0, 0), (1, 0)] : List (ℚ × ℚ)).length →
      ((assignDists testInputs.hav false testInputs.prov testInputs.df
          [(0, 0), (1, 0)]).getD 0 []).getD
          ((assign testInputs.hav false testInputs.prov testInputs.df
            [(0, 0), (1, 0)]).1.getD 0 0) 0 ≤
        ((assignDists testInputs.hav false testInputs.prov testInputs.df
          [(0, 0), (1, 0)]).getD 0 []).getD j 0) ∧
    (∀ j, j < (assign testInputs.hav false testInputs.prov testInputs.df
        [(0, 0), (1, 0)]).1.getD 0 0 →
      ((assignDists testInputs.hav false testInputs.prov testInputs.df
          [(0, 0), (1, 0)]).getD 0 []).getD
          ((assign testInputs.hav false testInputs.prov testInputs.df
            [(0, 0), (1, 0)]).1.getD 0 0) 0 <
        ((assignDists testInputs.hav false testInputs.prov testInputs.df
          [(0, 0), (1, 0)]).getD 0 []).getD j 0) ∧
    (assign testInputs.hav false testInputs.prov testInputs.df [(0, 0), (1, 0)]).2.getD 0 0 =
      ((assignDists testInputs.hav false testInputs.prov testInputs.df
        [(0, 0), (1, 0)]).getD 0 []).getD
        ((assign testInputs.hav false testInputs.prov testInputs.df
          [(0, 0), (1, 0)]).1.getD 0 0) 0 :=
  assign_nearest_center testInputs.hav false testInputs.prov testInputs.df [(0, 0), (1, 0)]
    (by simp) (fun o d m h => nomatch h) 0 (by simp [testInputs])

/-- C5: with no routing credential the provider returns the unavailable
signal without consulting the routing service (the result is `none` for
every provider), and every travel time entering the assignment step is
exactly `haversine(a, b) / 50 * 60` minutes for its
(store, center) pair, with `haversine` the spherical great-circle
formula of radius 3958.8 miles on degree inputs. -/
theorem no_key_haversine_fallback (prov prov₂ : Provider ℝ)
    (orig dest : List (ℝ × ℝ)) (df : List (Store ℝ)) (centers : List (ℝ × ℝ))
    (i j : ℕ) (hi : i < df.length) (hj : j < centers.length) :
    drive_time_matrix false prov orig dest = none ∧
    drive_time_matrix false prov orig dest = drive_time_matrix false prov₂ orig dest ∧
    ((assignDists haversine false prov df centers).getD i []).getD j 0 =
      haversine (df.getD i ⟨0, 0, 0⟩).Longitude (df.getD i ⟨0, 0, 0⟩).Latitude
        (centers.getD j (0, 0)).1 (centers.getD j (0, 0)).2 / 50 * 60 := by
  refine ⟨rfl, rfl, ?_⟩
  rw [assignDists_of_none haversine false prov df centers rfl]
  rw [getD_map_lt
    (fun s => centers.map (fun c => haversine s.Longitude s.Latitude c.1 c.2 / 50 * 60))
    df i hi [] ⟨0, 0, 0⟩]
  exact getD_map_lt _ centers j hj 0 (0, 0)

/-- Witness for C5 with one store, one center and two providers that
would answer differently if they were consulted. -/
theorem no_key_haversine_fallback_witness :
    drive_time_matrix false (fun _ _ => ProviderOutcome.ok [[(60 : ℝ)]])
      [((0 : ℝ), (0 : ℝ))] [((1 : ℝ), (1 : ℝ))] = none ∧
    drive_time_matrix false (fun _ _ => ProviderOutcome.ok [[(60 : ℝ)]])
      [((0 : ℝ), (0 : ℝ))] [((1 : ℝ), (1 : ℝ))] =
      drive_time_matrix false (fun _ _ => ProviderOutcome.apiError)
        [((0 : ℝ), (0 : ℝ))] [((1 : ℝ), (1 : ℝ))] ∧
    ((assignDists haversine false (fun _ _ => ProviderOutcome.ok [[(60 : ℝ)]])
        [⟨1, 2, 3⟩] [(4, 5)]).getD 0 []).getD 0 0 =
      haversine (([⟨1, 2, 3⟩] : List (Store ℝ)).getD 0 ⟨0, 0, 0⟩).Longitude
        (([⟨1, 2, 3⟩] : List (Store ℝ)).getD 0 ⟨0, 0, 0⟩).Latitude
        (([(4, 5)] : List (ℝ × ℝ)).getD 0 (0, 0)).1
        (([(4, 5)] : List (ℝ × ℝ)).getD 0 (0, 0)).2 / 50 * 60 :=
  no_key_haversine_fallback (fun _ _ => ProviderOutcome.ok [[(60 : ℝ)]])
    (fun _ _ => ProviderOutcome.apiError) [((0 : ℝ), (0 : ℝ))] [((1 : ℝ), (1 : ℝ))]
    [⟨1, 2, 3⟩] [(4, 5)] 0 0 (by simp) (by simp)

/-! ### Summation helpers -/

theorem sum_map_add {β : Type} (r : List β) (g h : β → α) :
    (r.map (fun b => g b + h b)).sum = (r.map g).sum + (r.map h).sum := by
  induction r with
  | nil => simp
  | cons a t ih =>
    simp only [List.map_cons, List.sum_cons, ih]
    ring

theorem sum_range_ite (n m : ℕ) (c : α) (h : m < n) :
    ((List.range n).map (fun i => if m = i then c else 0)).sum = c := by
  induction n with
  | zero => omega
  | succ n ih =>
    rw [List.range_succ, List.map_append, List.sum_append]
    by_cases hmn : m = n
    · subst hmn
      have hz : ((List.range m).map (fun i => if m = i then c else 0)).sum = 0 := by
        apply List.sum_eq_zero
        intro x hx
        obtain ⟨i, hi, rfl⟩ := List.mem_map.mp hx
        rw [if_neg]
        intro hmi
        have := List.mem_range.mp hi
        omega
      rw [hz]
      simp
    · have hmlt : m < n := by omega
      rw [ih hmlt]
      simp [hmn]

theorem sum_fiberwise {β : Type} (l : List (β × ℕ)) (f : β × ℕ → α) (n : ℕ)
    (hb : ∀ p ∈ l, p.2 < n) :
    ((List.range n).map (fun i => ((l.filter (fun p => p.2 = i)).map f).sum)).sum
      = (l.map f).sum := by
  induction l with
  | nil => simp
  | cons p t ih =>
    have hp : p.2 < n := hb p (List.mem_cons_self p t)
    have ht : ∀ q ∈ t, q.2 < n := fun q hq => hb q (List.mem_cons_of_mem p hq)
    have hsplit : ∀ i : ℕ,
        (((p :: t).filter (fun q => q.2 = i)).map f).sum =
          (if p.2 = i then f p else 0) + ((t.filter (fun q => q.2 = i)).map f).sum := by
      intro i
      by_cases hpi : p.2 = i
      · simp [List.filter_cons, hpi]
      · simp [List.filter_cons, hpi]
    calc ((List.range n).map
          (fun i => (((p :: t).filter (fun q => q.2 = i)).map f).sum)).sum
        = ((List.range n).map (fun i =>
            (if p.2 = i then f p else 0) +
              ((t.filter (fun q => q.2 = i)).map f).sum)).sum := by
          rw [List.map_congr_left (fun i _ => hsplit i)]
      _ = ((List.range n).map (fun i => if p.2 = i then f p else 0)).sum +
            ((List.range n).map
              (fun i => ((t.filter (fun q => q.2 = i)).map f).sum)).sum :=
          sum_map_add _ _ _
      _ = f p + (t.map f).sum := by rw [sum_range_ite n p.2 (f p) hp, ih ht]
      _ = ((p :: t).map f).sum := by simp

theorem sum_zipWith_getD (g : α → α → α) (t d : List α) (n : ℕ)
    (ht : t.length = n) (hd : d.length = n) :
    (List.zipWith g t d).sum =
      ((List.range n).map (fun j => g (t.getD j 0) (d.getD j 0))).sum := by
  induction n generalizing t d with
  | zero =>
    rw [List.length_eq_zero.mp ht, List.length_eq_zero.mp hd]
    simp
  | succ n ih =>
    match t, d with
    | [], _ => simp at ht
    | _ :: _, [] => simp at hd
    | a :: t, b :: d =>
      rw [List.zipWith_cons_cons, List.sum_cons, List.range_succ_eq_map,
        List.map_cons, List.sum_cons, List.map_map]
      congr 1
      rw [ih t d (by simpa using ht) (by simpa using hd)]
      exact congrArg List.sum (List.map_congr_left (fun j _ => rfl))

/-- The realized sum of `_transfer_time_multi` written as an explicit
double sum over (supply point, center index) pairs. -/
theorem transfer_time_multi_formula (hav : α → α → α → α → α) (key : Bool)
    (prov : Provider α) (hw : WellShaped prov) (pts : List (α × α × α))
    (C : List (α × α)) (demands : List α) (rate : α)
    (hd : demands.length = C.length) :
    transfer_time_multi hav key prov pts C demands rate =
      (pts.map (fun p => ((List.range C.length).map (fun j =>
        supplyCenterTime hav key prov p C j * demands.getD j 0 * p.2.2 * rate)).sum)).sum := by
  simp only [transfer_time_multi]
  refine congrArg List.sum (List.map_congr_left ?_)
  intro p _
  rcases hmat : drive_time_matrix key prov [(p.1, p.2.1)] C with _ | m
  · simp only [hmat]
    rw [sum_zipWith_getD _ _ _ C.length (by simp) hd]
    refine congrArg List.sum (List.map_congr_left ?_)
    intro j _
    simp only [supplyCenterTime, hmat]
  · obtain ⟨hm1, hmrows⟩ := drive_time_matrix_shape key prov hw _ _ m hmat
    have hmne : 0 < m.length := by rw [hm1]; simp
    have hrowlen : (m.getD 0 []).length = C.length := hmrows _ (getD_mem m 0 hmne [])
    simp only [hmat]
    rw [sum_zipWith_getD _ _ _ C.length hrowlen hd]
    refine congrArg List.sum (List.map_congr_left ?_)
    intro j _
    simp only [supplyCenterTime, hmat]

/-- C6: the per-center aggregate demand totals of every per-candidate
Solution sum exactly to the total input demand — each store contributes
to exactly one center's total because its assigned index is in range. -/
theorem demand_conserved (I : Inputs α) (k : ℕ)
    (hkm : ∀ pts n, (I.kmeans pts n).length = n)
    (hw : WellShaped I.prov) (hk : 1 ≤ k) :
    (evalK I k).demand_per_wh.sum = (I.df.map Store.DemandLbs).sum := by
  obtain ⟨hlen, hrows⟩ := assignDists_shape I.hav I.key I.prov hw I.df (evalK I k).centers
  have hclen : (evalK I k).centers.length = max k I.fixed_centers.length := by
    rw [evalK_centers, overrideFixed_length, hkm]
  have hcpos : 0 < (evalK I k).centers.length := by
    rw [hclen]
    omega
  have hidxlen : (evalK I k).assigned_wh.length = I.df.length := by
    rw [evalK_assigned_wh, List.length_map, hlen]
  have hbound : ∀ p ∈ I.df.zip (evalK I k).assigned_wh,
      p.2 < (evalK I k).centers.length := by
    intro p hp
    have hp2 : p.2 ∈ (evalK I k).assigned_wh := (List.of_mem_zip hp).2
    rw [evalK_assigned_wh] at hp2
    obtain ⟨row, hrow, hargeq⟩ := List.mem_map.mp hp2
    have hrlen := hrows row hrow
    have hrne : row ≠ [] := by
      intro hnil
      rw [hnil] at hrlen
      simp at hrlen
      omega
    rw [← hargeq, ← hrlen]
    exact argminIdx_lt_length row hrne
  rw [evalK_demand_per_wh, sum_fiberwise _ _ _ hbound]
  have hmm : (I.df.zip (evalK I k).assigned_wh).map (fun p => p.1.DemandLbs) =
      ((I.df.zip (evalK I k).assigned_wh).map Prod.fst).map Store.DemandLbs := by
    rw [List.map_map]
    rfl
  rw [hmm, List.map_fst_zip _ _ (le_of_eq hidxlen.symm)]

/-- Witness for C6 at the offline configuration, `k = 1`. -/
theorem demand_conserved_witness :
    1 ≤ 1 ∧ (evalK testInputs 1).demand_per_wh.sum =
      (testInputs.df.map Store.DemandLbs).sum :=
  ⟨le_refl 1,
   demand_conserved testInputs 1
    (fun pts n => by
      show ((List.range n).map (fun (i : ℕ) => ((i : ℚ), 0))).length = n
      rw [List.length_map, List.length_range])
    (fun o d m h => nomatch h) (le_refl 1)⟩

/-- C7: with inbound disabled the inbound component is `0`; with
inbound enabled it equals the double sum over every active supply point
`(share p, rate r)` and every center index `j` (aggregate demand `d_j`)
of `travel_time(supply, center_j) × d_j × p × r`, with no constraint
relating the supply shares. -/
theorem inbound_cost_sum (I : Inputs α) (k : ℕ) (hw : WellShaped I.prov) :
    (I.consider_inbound = false → (evalK I k).in_cost = 0) ∧
    (I.consider_inbound = true → (evalK I k).in_cost =
      (I.inbound_pts.map (fun p =>
        ((List.range (evalK I k).centers.length).map (fun j =>
          supplyCenterTime I.hav I.key I.prov p (evalK I k).centers j *
            (evalK I k).demand_per_wh.getD j 0 * p.2.2 * I.inbound_rate_min)).sum)).sum) := by
  have hdlen : (evalK I k).demand_per_wh.length = (evalK I k).centers.length := by
    rw [evalK_demand_per_wh]
    simp
  constructor
  · intro h
    rw [evalK_in_cost, h]
    simp
  · intro h
    rw [evalK_in_cost, h]
    simp only [if_true]
    exact transfer_time_multi_formula I.hav I.key I.prov hw I.inbound_pts
      (evalK I k).centers (evalK I k).demand_per_wh I.inbound_rate_min hdlen

/-- Witness for C7: the disabled half at a configuration with inbound
off, the enabled half at the offline configuration. -/
theorem inbound_cost_sum_witness :
    (evalK { testInputs with consider_inbound := false } 1).in_cost = 0 ∧
    (evalK testInputs 1).in_cost =
      (testInputs.inbound_pts.map (fun p =>
        ((List.range (evalK testInputs 1).centers.length).map (fun j =>
          supplyCenterTime testInputs.hav testInputs.key testInputs.prov p
            (evalK testInputs 1).centers j *
            (evalK testInputs 1).demand_per_wh.getD j 0 * p.2.2 *
            testInputs.inbound_rate_min)).sum)).sum :=
  ⟨(inbound_cost_sum { testInputs with consider_inbound := false } 1
      (fun o d m h => nomatch h)).1 rfl,
   (inbound_cost_sum testInputs 1 (fun o d m h => nomatch h)).2 rfl⟩

end NetworkStudy
